/-
Verification of the maize microkernel core (kernel/src) against its
natural-language specification.

Shallow embedding conventions:
* Machine integers (`u32`, `u64`, `usize`) are modelled as `Nat`; wherever the
  source can overflow or truncate, the reduction `% 2 ^ w` is written
  explicitly at that spot.
* Atomic cells are modelled by their value together with the atomic steps the
  source performs on them (compare-exchange, store, fetch-add, fetch-sub).
* Fallible Rust functions returning `Option`/`Result` are modelled with
  `Option`.
* In-place mutation through `&mut` is modelled by explicit state passing; a
  function that can fail after partially reading but before writing returns
  the state it left behind on every path, mirroring the order of reads and
  writes in the source.
-/
import Mathlib

namespace Maize

/-! ## Machine constants (kernel/src/machine.rs) -/

/-- `machine.rs`: `pub const FRAME_COUNT: usize = 0x20_0000;` -/
def FRAME_COUNT : Nat := 0x200000

/-- `table.rs`: `pub const TABLE_LEN: usize = 0x200;` -/
def TABLE_LEN : Nat := 0x200

/-! ## Frame registry and shared handle (kernel/src/frame.rs)

The registry keeps, per frame, a kind (`FRAME_KINDS`) and an atomic reference
count (`REF_COUNTS`).  Every `Arc` operation touches only the slot of its own
frame index, so the model tracks one frame's slot. -/

/-- `frame.rs`: `enum FrameKind { Internal, Normal, External }`. -/
inductive FrameKind
  | internal
  | normal
  | external
deriving DecidableEq, Repr

/-- One frame's registry slot: its kind and its `AtomicU32` reference count. -/
structure FrameSlot where
  kind : FrameKind
  refCount : Nat
deriving DecidableEq, Repr

/-- `Arc::new_with` (frame.rs lines 88-120), per frame slot: fail when the
registered kind differs from the expected kind; otherwise
`compare_exchange(0, 1, Acquire, Relaxed)` on the count (fail when the count
is not 0), run the constructor closure, and `store(2, Relaxed)`. -/
def newWith (expected : FrameKind) (s : FrameSlot) : Option FrameSlot :=
  if s.kind ≠ expected then
    none
  else if s.refCount ≠ 0 then
    -- the compare-exchange from 0 fails
    none
  else
    -- compare-exchange sets the count to 1, the closure runs, then `store 2`
    some { s with refCount := 2 }

/-- The atomic events `Arc::new_with` performs on one frame's count cell:
the claiming `compare_exchange(0, 1, _, _)` and the `store(2, _)` that
publishes the constructed payload.  A race of several `new` calls on the same
frame is an arbitrary interleaving of such events on the cell. -/
inductive NewCellEvent
  | casAttempt
  | storeInit
deriving DecidableEq, Repr

/-- Apply one atomic event to `(cell value, number of successful claims)`. -/
def newCellApply : Nat × Nat → NewCellEvent → Nat × Nat
  | (v, k), .casAttempt => if v = 0 then (1, k + 1) else (v, k)
  | (_, k), .storeInit => (2, k)

/-- Run a sequence of claiming events against a frame whose count starts at
the unused sentinel 0, counting how many claims succeed. -/
def newRace (evs : List NewCellEvent) : Nat × Nat :=
  evs.foldl newCellApply (0, 0)

/-! ### Sequential `Arc` operation traces (for the refcount-balance claim)

`ArcState` carries the registry slot of one frame plus ghost bookkeeping that
the Rust ownership discipline enforces: the number of live `Arc` handles, the
number of indices taken out by `into_raw` and not yet resurrected, and how
many times the payload destructor has run. -/

structure ArcState where
  kind : FrameKind
  refCount : Nat
  destructed : Nat
  handles : Nat
  raws : Nat
deriving DecidableEq, Repr

inductive ArcOp
  | new
  | clone
  | drop
  | intoRaw
  | fromRaw
deriving DecidableEq, Repr

/-- One `Arc` operation on a frame, mirroring frame.rs:
* `new` (`Arc::new` → `new_with`): claims the frame iff the kind is `Normal`
  and the count is 0, leaving the count at 2; a failed `new` changes nothing.
* `clone`: requires a live handle; `fetch_add(1, Relaxed)`.
* `drop`: requires a live handle; `fetch_sub(1, Release)`; when the value
  fetched (the pre-decrement value) is 1, run the payload destructor and
  `store(0, Release)`.
* `into_raw`: forgets a live handle, leaving the count untouched.
* `from_raw`: resurrects a handle from a raw index, leaving the count
  untouched. -/
def arcStep (s : ArcState) : ArcOp → Option ArcState
  | .new =>
      if s.kind = FrameKind.normal ∧ s.refCount = 0 then
        some { s with refCount := 2, handles := s.handles + 1 }
      else
        some s
  | .clone =>
      if s.handles = 0 then none
      else some { s with refCount := (s.refCount + 1) % 2 ^ 32, handles := s.handles + 1 }
  | .drop =>
      if s.handles = 0 then none
      else if s.refCount = 1 then
        some { s with refCount := 0, destructed := s.destructed + 1, handles := s.handles - 1 }
      else
        some { s with refCount := (s.refCount + 2 ^ 32 - 1) % 2 ^ 32, handles := s.handles - 1 }
  | .intoRaw =>
      if s.handles = 0 then none
      else some { s with handles := s.handles - 1, raws := s.raws + 1 }
  | .fromRaw =>
      if s.raws = 0 then none
      else some { s with raws := s.raws - 1, handles := s.handles + 1 }

/-- Run a sequence of `Arc` operations on one frame. -/
def runArcOps (s : ArcState) : List ArcOp → Option ArcState
  | [] => some s
  | op :: ops => (arcStep s op).bind (fun s' => runArcOps s' ops)

/-- A frame slot as the registry leaves it before any handle exists:
kind `Normal` (after `mark_normal`), count 0, destructor never run. -/
def freshNormal : ArcState :=
  { kind := FrameKind.normal, refCount := 0, destructed := 0, handles := 0, raws := 0 }

/-! ## Synchronization token (kernel/src/sync.rs)

`TOKEN_HOLDER : AtomicU64` holds `INVALID_HART_ID` (`u64::MAX`) when the token
is free, or the holding hart's id.  `Token::acquire` succeeds only through
`compare_exchange_weak(INVALID_HART_ID, hart_id, Acquire, Relaxed)` (the spin
around it never changes the cell); `acquire` asserts `hart_id ≠
INVALID_HART_ID`.  Dropping the token does `store(INVALID_HART_ID, Release)`;
only a hart that owns the zero-sized `Token` value can drop it. -/

/-- `sync.rs`: `const INVALID_HART_ID: u64 = u64::MAX;` -/
def INVALID_HART_ID : Nat := 2 ^ 64 - 1

/-- The holder word together with ghost ownership bookkeeping: which harts
currently own a `Token` value. -/
structure TokenState where
  holder : Nat
  holds : Nat → Bool

/-- Atomic transitions of the token cell.
* `acquire`: the successful compare-exchange inside `Token::acquire`; only
  applicable when the cell holds `INVALID_HART_ID`, and the acquiring hart id
  is asserted valid.  The hart now owns a `Token` value.
* `release`: `Drop for Token`; the dropping hart must own a `Token` value,
  and the cell is set back to `INVALID_HART_ID`. -/
inductive TokenStep : TokenState → TokenState → Prop
  | acquire (s : TokenState) (h : Nat) (hvalid : h ≠ INVALID_HART_ID)
      (hfree : s.holder = INVALID_HART_ID) :
      TokenStep s ⟨h, Function.update s.holds h true⟩
  | release (s : TokenState) (h : Nat) (howns : s.holds h = true) :
      TokenStep s ⟨INVALID_HART_ID, Function.update s.holds h false⟩

/-- At boot the cell holds `INVALID_HART_ID` and no hart owns a token. -/
def initTokenState : TokenState := ⟨INVALID_HART_ID, fun _ => false⟩

/-- States reachable by any interleaving of acquire and release steps by any
set of harts. -/
inductive TokenReachable : TokenState → Prop
  | init : TokenReachable initTokenState
  | step {s s' : TokenState} : TokenReachable s → TokenStep s s' → TokenReachable s'

/-- The inductive invariant tying the holder word to token ownership. -/
def TokenInv (s : TokenState) : Prop :=
  ∀ h : Nat, s.holds h = true ↔ (s.holder = h ∧ h ≠ INVALID_HART_ID)

/-! ## Page-table entry encodings (kernel/src/table.rs)

Entries are 64-bit words; every construction below stays well under `2 ^ 64`
except the `l2_frame_number << 18` cast, whose `usize` truncation is written
explicitly. -/

/-- `table.rs`: `enum Permissions`. -/
inductive Permissions
  | readOnly
  | readWrite
  | executeOnly
  | readExecute
  | readWriteExecute
deriving DecidableEq, Repr

/-- `Permissions::bits`: READ = 1 << 1, WRITE = 1 << 2, EXECUTE = 1 << 3. -/
def Permissions.bits : Permissions → Nat
  | .readOnly => 2
  | .readWrite => 2 ||| 4
  | .executeOnly => 8
  | .readExecute => 2 ||| 8
  | .readWriteExecute => 2 ||| 4 ||| 8

/-- `L2Entry::kernel(l2_frame_number, permissions)`: a huge-page kernel leaf.
`(l2_frame_number << 18) as u64` truncates in 64 bits; the PPN field is the
truncated value masked to 44 bits and shifted to bit 10.  VALID, GLOBAL,
ACCESSED and DIRTY are set; USER and RSW are zero. -/
def l2EntryKernel (l2FrameNumber : Nat) (permissions : Permissions) : Nat :=
  let frameNumber := (l2FrameNumber <<< 18) % 2 ^ 64
  let ppn := (frameNumber &&& (2 ^ 44 - 1)) <<< 10
  1 ||| permissions.bits ||| 0 ||| (1 <<< 5) ||| (1 <<< 6) ||| (1 <<< 7) ||| 0 ||| ppn

/-- `L2Entry::kernel_interior(l1_table)`: VALID and GLOBAL set, PPN = the L1
table's frame number. -/
def l2EntryKernelInterior (l1FrameNumber : Nat) : Nat :=
  let ppn := (l1FrameNumber &&& (2 ^ 44 - 1)) <<< 10
  1 ||| (1 <<< 5) ||| 0 ||| ppn

/-- `L2Entry::interior(l1_table)`: VALID set, PPN = the L1 table's frame
number. -/
def l2EntryInterior (l1FrameNumber : Nat) : Nat :=
  let ppn := (l1FrameNumber &&& (2 ^ 44 - 1)) <<< 10
  1 ||| 0 ||| ppn

/-- `L2Entry::invalid()`: the all-clear word. -/
def l2EntryInvalid : Nat := 0 ||| 0

/-- The `while` loop of `boot_l2_table` (table.rs lines 90-106): starting from
`index`, write `L2Entry::kernel(index - TABLE_LEN/2, ReadWrite)` at each
index below `TABLE_LEN - 1`. -/
def bootL2Fill (entries : Fin TABLE_LEN → Nat) (index : Nat) : Fin TABLE_LEN → Nat :=
  if h : index < TABLE_LEN - 1 then
    bootL2Fill
      (Function.update entries ⟨index, by omega⟩
        (l2EntryKernel (index - TABLE_LEN / 2) Permissions.readWrite))
      (index + 1)
  else
    entries
termination_by TABLE_LEN - 1 - index
decreasing_by omega

/-- `boot_l2_table()`: all entries invalid, then the loop fills
`TABLE_LEN/2 ..= TABLE_LEN-2` with huge-page kernel mappings, then entry
`TABLE_LEN - 1` is `L2Entry::kernel(0x2, ReadWriteExecute)`. -/
def bootL2Table : Fin TABLE_LEN → Nat :=
  Function.update (bootL2Fill (fun _ => l2EntryInvalid) (TABLE_LEN / 2))
    ⟨TABLE_LEN - 1, by decide⟩ (l2EntryKernel 0x2 Permissions.readWriteExecute)

/-- `L2TableCap::new(frame_number, token)` (table.rs lines 152-159): seed the
array with `boot_l2_table()`, then overwrite the last entry with
`L2Entry::kernel_interior(kernel_l1_table)`.  (The surrounding `Arc::new`
claim of the frame is the `newWith` model above; this is the entry array the
successful claim constructs, given the installed kernel L1 table's frame.) -/
def l2TableNew (kernelL1Frame : Nat) : Fin TABLE_LEN → Nat :=
  Function.update bootL2Table ⟨TABLE_LEN - 1, by decide⟩
    (l2EntryKernelInterior kernelL1Frame)

/-! ### Capability entries (table.rs `Cap::l0_entry` and `L0Entry::cap`) -/

/-- The six capability kinds of `enum Cap`. -/
inductive CapKind
  | l2Table
  | l1Table
  | l0Table
  | l0Page
  | thread
  | call
deriving DecidableEq, Repr

/-- The tag `Cap::l0_entry` pairs with each variant's frame number
(table.rs lines 55-67). -/
def CapKind.tag : CapKind → Nat
  | .l2Table => 0x0
  | .l1Table => 0x1
  | .l0Table => 0x2
  | .l0Page => 0x5
  | .thread => 0x6
  | .call => 0x7

/-- `L0Entry::cap(frame_number, tag)` (table.rs lines 333-339): VALID = 0,
CAP = 1 << 1, the tag at bit 2, the frame number at bit 10.  This is the word
`give_capability` writes into the chosen slot. -/
def l0EntryCap (frameNumber tag : Nat) : Nat :=
  0 ||| (1 <<< 1) ||| (tag <<< 2) ||| (frameNumber <<< 10)

/-- Modelled from the spec: the capability-entry bit layout gives the kind in
bits 2-9; the source has no decoder yet (fetching capabilities back out of a
table is a listed TODO), so the field extraction follows the spec's layout. -/
def capEntryTag (entry : Nat) : Nat := (entry >>> 2) &&& 0xff

/-- Modelled from the spec: the capability-entry bit layout gives the frame
index in bits 10 and up; field extraction per the spec's layout. -/
def capEntryIdx (entry : Nat) : Nat := entry >>> 10

/-- Modelled from the spec: the inverse of the tag table
(0 L2, 1 L1, 2 L0, 5 Page, 6 Thread, 7 Call). -/
def tagKind : Nat → Option CapKind
  | 0x0 => some CapKind.l2Table
  | 0x1 => some CapKind.l1Table
  | 0x2 => some CapKind.l0Table
  | 0x5 => some CapKind.l0Page
  | 0x6 => some CapKind.thread
  | 0x7 => some CapKind.call
  | _ => none

/-! ## Threads and calls (kernel/src/thread.rs)

Capabilities (`L2TableCap`, `CallCap`) are `Arc` handles fully determined by
their frame index, so a held capability is modelled by that index.  A `Call`
record's payload is `{pc, sp, l2_table}`; `ThreadCap::call` reads the record
through the capability, so the model passes the record itself. -/

/-- `thread.rs`: `Context`, the 32-slot general-purpose register layout. -/
structure Context where
  ra : Nat
  pc : Nat
  sp : Nat
  gp : Nat
  tp : Nat
  t : Fin 7 → Nat
  s : Fin 12 → Nat
  a : Fin 8 → Nat

/-- `thread.rs`: `struct Call { pc, sp, l2_table }`; the `l2_table`
capability is identified by its frame index. -/
structure Call where
  pc : Nat
  sp : Nat
  l2Table : Nat
deriving DecidableEq, Repr

/-- `thread.rs`: `struct Thread`.  The call stack is the initialized prefix
of the fixed 8-element array, most recent call first (`push` writes at
`depth`, `pop` reads at `depth - 1`). -/
structure Thread where
  context : Option Context
  l2Table : Nat
  callStack : List Call
  exceptionCall : Option Call

/-- `CallStack::MAX_DEPTH`. -/
def MAX_DEPTH : Nat := 8

/-- `CallStack::push`: `calls.get_mut(depth)` fails when the depth already
equals the array length 8; otherwise write the call there and increment the
depth.  On failure nothing is written. -/
def callStackPush (stack : List Call) (c : Call) : Option (List Call) :=
  if stack.length < MAX_DEPTH then some (c :: stack) else none

/-- `CallStack::pop`: `depth.checked_sub(1)` fails on an empty stack;
otherwise read the top call and decrement the depth. -/
def callStackPop (stack : List Call) : Option (Call × List Call) :=
  match stack with
  | [] => none
  | c :: rest => some (c, rest)

/-- `ThreadCap::call(token, call)` (thread.rs lines 62-79), in state-passing
style: read `pc`, `sp`, `l2_table` out of the call record; fail (state
untouched) when the context slot is empty; push `{context.pc, context.sp,
thread.l2_table}` onto the call stack, failing (state untouched — `push`
writes nothing on failure) when the stack is full; only then overwrite
`context.pc`, `context.sp` and `thread.l2_table` with the call target's. -/
def threadCall (th : Thread) (c : Call) : Option Unit × Thread :=
  match th.context with
  | none => (none, th)
  | some ctx =>
    match callStackPush th.callStack { pc := ctx.pc, sp := ctx.sp, l2Table := th.l2Table } with
    | none => (none, th)
    | some stack =>
      (some (),
        { th with
          context := some { ctx with pc := c.pc, sp := c.sp }
          l2Table := c.l2Table
          callStack := stack })

/-- `ThreadCap::ret(token)` (thread.rs lines 81-89): fail when the context
slot is empty; pop the call stack, failing when it is empty; restore `pc`,
`sp` and `l2_table` from the popped record. -/
def threadRet (th : Thread) : Option Unit × Thread :=
  match th.context with
  | none => (none, th)
  | some ctx =>
    match callStackPop th.callStack with
    | none => (none, th)
    | some (c, rest) =>
      (some (),
        { th with
          context := some { ctx with pc := c.pc, sp := c.sp }
          l2Table := c.l2Table
          callStack := rest })

/-- `ThreadCap::call` as a plain fallible transition. -/
def threadCallOpt (th : Thread) (c : Call) : Option Thread :=
  match threadCall th c with
  | (some _, th') => some th'
  | (none, _) => none

/-- `ThreadCap::ret` as a plain fallible transition. -/
def threadRetOpt (th : Thread) : Option Thread :=
  match threadRet th with
  | (some _, th') => some th'
  | (none, _) => none

/-- A sequence of `call` operations, each required to succeed. -/
def threadCallMany (th : Thread) : List Call → Option Thread
  | [] => some th
  | c :: cs => (threadCallOpt th c).bind (fun th' => threadCallMany th' cs)

/-- `ThreadCap::resume(token)` (thread.rs lines 106-267): take the context
out of the thread — failing, with only the token handed back, when the slot
is already empty — activate the bound table, release the token, enter user
mode, and on the trap reacquire the token and reinstall the context saved by
the trap path.  User-mode execution is outside the kernel: the context the
trap saves and the `scause`/`stval` CSR values read at the trap are inputs
from the environment.  `main` destructures the successful return as
`(token, scause, stval)`. -/
def threadResume (th : Thread) (trapCtx : Context) (scause stval : Nat) :
    Option (Thread × Nat × Nat) :=
  match th.context with
  | none => none
  | some _ => some ({ th with context := some trapCtx }, scause, stval)

/-! ## The trap-dispatch loop (kernel/src/main.rs lines 169-210) -/

/-- The observable outcome of one pass of the dispatch loop after `resume`
returns `(scause, stval)`. -/
inductive DispatchOutcome
  | shutdown
  | continueLoop (th : Thread)
  | fatal

/-- One pass of the `loop` body in `main` after `resume` returned, given the
thread as `resume` left it: on `scause = 0x8`, `context_mut(..).unwrap()`
(a missing context is a kernel panic), then dispatch on `a[0]` — 0 shuts the
system down; 1 logs `a[1]` as bytes and 2 or any other value logs the
context, both falling through to `context.pc += 0x4` and the next iteration.
The `+= 0x4` is a `usize` addition, wrapping in release builds (debug builds
panic on overflow), so it is modelled as addition mod `2 ^ 64`.  Any other
`scause` panics. -/
def dispatchStep (th : Thread) (scause _stval : Nat) : DispatchOutcome :=
  match scause with
  | 0x8 =>
    match th.context with
    | none => DispatchOutcome.fatal
    | some ctx =>
      match ctx.a 0 with
      | 0x0 => DispatchOutcome.shutdown
      | _ =>
        DispatchOutcome.continueLoop
          { th with context := some { ctx with pc := (ctx.pc + 0x4) % 2 ^ 64 } }
  | _ => DispatchOutcome.fatal

/-! ## Concrete fixtures used to evaluate the definitions -/

/-- An all-zero register context. -/
def ctxZero : Context :=
  { ra := 0, pc := 0, sp := 0, gp := 0, tp := 0
    t := fun _ => 0, s := fun _ => 0, a := fun _ => 0 }

/-- A register context whose argument registers all hold 1. -/
def ctxArgOne : Context :=
  { ra := 0, pc := 0, sp := 0, gp := 0, tp := 0
    t := fun _ => 0, s := fun _ => 0, a := fun _ => 1 }

/-- A call record targeting pc 0, sp 0, table frame 0. -/
def callZero : Call := { pc := 0, sp := 0, l2Table := 0 }

/-- A freshly created parked thread (as `ThreadCap::new` builds it). -/
def threadZero : Thread :=
  { context := some ctxZero, l2Table := 0, callStack := [], exceptionCall := none }

/-- A thread whose context slot is empty (currently executing). -/
def threadRunning : Thread :=
  { context := none, l2Table := 0, callStack := [], exceptionCall := none }

/-- A parked thread whose argument registers hold 1. -/
def threadArgOne : Thread :=
  { context := some ctxArgOne, l2Table := 0, callStack := [], exceptionCall := none }

/-- `threadZero` after eight successful `call callZero` operations. -/
def threadAfter8 : Thread :=
  { context := some ctxZero, l2Table := 0
    callStack := List.replicate 8 callZero, exceptionCall := none }

/-- The token state after hart 0 acquires the free token at boot. -/
def tokenStateHart0 : TokenState :=
  ⟨0, Function.update initTokenState.holds 0 true⟩

/-! ## Theorems -/

/-- C1: the spec requires that when the last live handle for a frame is
dropped, the refcount returns to the unused sentinel 0 and the payload
destructor has run exactly once.  The code disagrees: `new_with` publishes a
single handle at count 2, while `drop` runs the destructor only when the
value fetched by `fetch_sub` was 1, so dropping the sole handle of a freshly
claimed frame leaves the count at 1 and never runs the destructor.  This
theorem evaluates the embedded code at that failing input: after `new` then
`drop` on a fresh Normal frame there are 0 live handles, the count is 1 (not
the unused sentinel 0) and the destructor has run 0 times (not once). -/
theorem arc_last_drop_leaves_count_one :
    (runArcOps freshNormal [ArcOp.new, ArcOp.drop]).map
      (fun s => (s.handles, s.refCount, s.destructed)) = some (0, 1, 0) := by
  rfl

/-- C2: `resume` fails — handing back only the token — exactly when the
thread's context slot is empty, and on success returns the trap's `scause`
and `stval` alongside the token (success payload per the spec and `main`'s
destructuring of the result). -/
theorem resume_fails_iff_context_empty :
    (∀ (th : Thread) (trapCtx : Context) (scause stval : Nat),
        threadResume th trapCtx scause stval = none ↔ th.context = none)
    ∧ (∀ (th : Thread) (trapCtx : Context) (scause stval : Nat) (ctx : Context),
        th.context = some ctx →
          threadResume th trapCtx scause stval =
            some ({ th with context := some trapCtx }, scause, stval)) := by
  constructor
  · intro th trapCtx scause stval
    unfold threadResume
    cases th.context <;> simp
  · intro th trapCtx scause stval ctx h
    unfold threadResume
    rw [h]

/-- Witness for C2: a fresh parked thread resumes successfully, yielding the
environment's `scause` and `stval`; a running (context-empty) thread fails. -/
theorem resume_fails_iff_context_empty_witness :
    threadResume threadZero ctxZero 0x8 0x2a = some (threadZero, 0x8, 0x2a)
    ∧ threadResume threadRunning ctxZero 0x8 0x2a = none :=
  ⟨resume_fails_iff_context_empty.2 threadZero ctxZero 0x8 0x2a ctxZero rfl,
   (resume_fails_iff_context_empty.1 threadRunning ctxZero 0x8 0x2a).mpr rfl⟩

/-- C10: a failed `call` — whether because the context slot is empty or the
call stack is full — leaves the thread's context, bound table and call stack
untouched; the failure condition is exactly those two cases. -/
theorem call_failure_leaves_state :
    ∀ (th : Thread) (c : Call),
      ((threadCall th c).1 = none ↔
        (th.context = none ∨ ¬ th.callStack.length < MAX_DEPTH))
      ∧ ((threadCall th c).1 = none → (threadCall th c).2 = th) := by
  intro th c
  unfold threadCall callStackPush
  cases th.context with
  | none => simp
  | some ctx => by_cases hlen : th.callStack.length < MAX_DEPTH <;> simp [hlen]

/-- Witness for C10: a running thread's `call` fails and leaves the thread
unchanged. -/
theorem call_failure_leaves_state_witness :
    (threadCall threadRunning callZero).1 = none
    ∧ (threadCall threadRunning callZero).2 = threadRunning :=
  ⟨((call_failure_leaves_state threadRunning callZero).1).mpr (Or.inl rfl),
   (call_failure_leaves_state threadRunning callZero).2
     (((call_failure_leaves_state threadRunning callZero).1).mpr (Or.inl rfl))⟩

/-- C9: in the dispatch loop, a return with the environment-call cause 0x8
whose handling comes back to the loop (`a[0] ≠ 0`) updates the parked
context's pc to `(pc + 4) % 2 ^ 64` — the source's wrapping `usize`
increment — and changes nothing else before the next resume; whenever the
addition does not overflow (every pc below `2 ^ 64 - 4`) this is an
increment by exactly 4; a return with any other cause panics. -/
theorem dispatch_step_spec :
    ∀ (th : Thread) (ctx : Context) (scause stval : Nat),
      (th.context = some ctx → scause = 0x8 → ctx.a 0 ≠ 0 →
        dispatchStep th scause stval =
          DispatchOutcome.continueLoop
            { th with context := some { ctx with pc := (ctx.pc + 0x4) % 2 ^ 64 } })
      ∧ (th.context = some ctx → scause = 0x8 → ctx.a 0 ≠ 0 → ctx.pc + 0x4 < 2 ^ 64 →
        dispatchStep th scause stval =
          DispatchOutcome.continueLoop
            { th with context := some { ctx with pc := ctx.pc + 0x4 } })
      ∧ (scause ≠ 0x8 → dispatchStep th scause stval = DispatchOutcome.fatal) := by
  intro th ctx scause stval
  have hmain : th.context = some ctx → scause = 0x8 → ctx.a 0 ≠ 0 →
      dispatchStep th scause stval =
        DispatchOutcome.continueLoop
          { th with context := some { ctx with pc := (ctx.pc + 0x4) % 2 ^ 64 } } := by
    intro hctx hcause ha
    subst hcause
    cases hv : ctx.a 0 with
    | zero => exact absurd hv ha
    | succ m => simp [dispatchStep, hctx, hv]
  refine ⟨hmain, ?_, ?_⟩
  · intro hctx hcause ha hlt
    rw [hmain hctx hcause ha, Nat.mod_eq_of_lt hlt]
  · intro hcause
    unfold dispatchStep
    split
    · exact absurd rfl hcause
    · rfl

/-- Witness for C9: an environment call with `a[0] = 1` advances pc from 0
to 4 (both through the wrapping form and the no-overflow form); an
illegal-instruction cause (2) panics. -/
theorem dispatch_step_spec_witness :
    dispatchStep threadArgOne 0x8 0 =
      DispatchOutcome.continueLoop
        { threadArgOne with
          context := some { ctxArgOne with pc := (ctxArgOne.pc + 0x4) % 2 ^ 64 } }
    ∧ dispatchStep threadArgOne 0x8 0 =
      DispatchOutcome.continueLoop
        { threadArgOne with context := some { ctxArgOne with pc := ctxArgOne.pc + 0x4 } }
    ∧ dispatchStep threadArgOne 0x2 0 = DispatchOutcome.fatal :=
  ⟨(dispatch_step_spec threadArgOne ctxArgOne 0x8 0).1 rfl rfl (by decide),
   (dispatch_step_spec threadArgOne ctxArgOne 0x8 0).2.1 rfl rfl (by decide) (by decide),
   (dispatch_step_spec threadArgOne ctxArgOne 0x2 0).2.2 (by decide)⟩

/-- The race invariant for a frame being claimed: at most one claim has
succeeded, and none has while the count still reads 0. -/
def NewRaceInv (p : Nat × Nat) : Prop := p.2 ≤ 1 ∧ (p.1 = 0 → p.2 = 0)

/-- One atomic claiming event preserves the race invariant. -/
theorem newCellApply_inv (p : Nat × Nat) (e : NewCellEvent) (h : NewRaceInv p) :
    NewRaceInv (newCellApply p e) := by
  obtain ⟨v, k⟩ := p
  obtain ⟨hk, hv⟩ := h
  cases e with
  | casAttempt =>
    by_cases hz : v = 0
    · subst hz
      have hk0 : k = 0 := hv rfl
      subst hk0
      simp [newCellApply, NewRaceInv]
    · simp only [newCellApply, if_neg hz]
      exact ⟨hk, hv⟩
  | storeInit =>
    simp only [newCellApply]
    exact ⟨hk, by simp⟩

/-- The race invariant holds after any sequence of claiming events. -/
theorem newRace_inv (evs : List NewCellEvent) (p : Nat × Nat) (h : NewRaceInv p) :
    NewRaceInv (evs.foldl newCellApply p) := by
  induction evs generalizing p with
  | nil => exact h
  | cons e evs ih => exact ih _ (newCellApply_inv p e h)

/-- C4: `Arc::new` (via `new_with`) fails exactly when the frame's registered
kind differs from the expected kind or the reference count is not 0 at the
claiming compare-exchange; a success starts from count 0 (the unique 0→1
transition) and publishes count 2; and in any interleaving of the atomic
count-cell events of competing `new` calls on one frame, at most one claim
succeeds. -/
theorem arc_new_gating_and_unique_claim :
    (∀ (s : FrameSlot) (K : FrameKind),
        newWith K s = none ↔ (s.kind ≠ K ∨ s.refCount ≠ 0))
    ∧ (∀ (s : FrameSlot) (K : FrameKind) (s' : FrameSlot),
        newWith K s = some s' → s.refCount = 0 ∧ s'.refCount = 2)
    ∧ (∀ evs : List NewCellEvent, (newRace evs).2 ≤ 1) := by
  refine ⟨?_, ?_, ?_⟩
  · intro s K
    unfold newWith
    by_cases hkind : s.kind = K <;> by_cases hcount : s.refCount = 0 <;>
      simp [hkind, hcount]
  · intro s K s' h
    unfold newWith at h
    by_cases hkind : s.kind = K <;> by_cases hcount : s.refCount = 0 <;>
      simp [hkind, hcount] at h
    exact ⟨hcount, by rw [← h]⟩
  · intro evs
    exact (newRace_inv evs (0, 0) (by simp [NewRaceInv])).1

/-- Witness for C4: a kind-mismatched claim fails; a fresh Normal frame is
claimed from count 0 to steady count 2; and the interleaving in which two
`new` calls both attempt the compare-exchange before either store yields
exactly one success. -/
theorem arc_new_gating_and_unique_claim_witness :
    newWith FrameKind.internal ⟨FrameKind.normal, 0⟩ = none
    ∧ ((⟨FrameKind.normal, 0⟩ : FrameSlot).refCount = 0
        ∧ (⟨FrameKind.normal, 2⟩ : FrameSlot).refCount = 2)
    ∧ (newRace [NewCellEvent.casAttempt, NewCellEvent.casAttempt,
        NewCellEvent.storeInit, NewCellEvent.storeInit]).2 ≤ 1 :=
  ⟨(arc_new_gating_and_unique_claim.1 ⟨FrameKind.normal, 0⟩ FrameKind.internal).mpr
      (Or.inl (by decide)),
   arc_new_gating_and_unique_claim.2.1 ⟨FrameKind.normal, 0⟩ FrameKind.normal
      ⟨FrameKind.normal, 2⟩ rfl,
   arc_new_gating_and_unique_claim.2.2
      [NewCellEvent.casAttempt, NewCellEvent.casAttempt,
       NewCellEvent.storeInit, NewCellEvent.storeInit]⟩

/-- Acquire and release steps preserve the token invariant. -/
theorem tokenStep_inv {s s' : TokenState} (hstep : TokenStep s s') (hinv : TokenInv s) :
    TokenInv s' := by
  cases hstep with
  | acquire h hvalid hfree =>
    intro h''
    show Function.update s.holds h true h'' = true ↔ h = h'' ∧ h'' ≠ INVALID_HART_ID
    by_cases heq : h'' = h
    · subst heq
      simp [Function.update_same, hvalid]
    · rw [Function.update_noteq heq]
      have hold := hinv h''
      rw [hfree] at hold
      constructor
      · intro htrue
        rcases hold.mp htrue with ⟨hh, hne⟩
        exact absurd hh.symm hne
      · rintro ⟨hh, -⟩
        exact absurd hh (fun hx => heq hx.symm)
  | release h howns =>
    have hholder : s.holder = h := ((hinv h).mp howns).1
    intro h''
    show Function.update s.holds h false h'' = true
      ↔ INVALID_HART_ID = h'' ∧ h'' ≠ INVALID_HART_ID
    constructor
    · intro htrue
      by_cases heq : h'' = h
      · subst heq
        rw [Function.update_same] at htrue
        exact absurd htrue (by simp)
      · rw [Function.update_noteq heq] at htrue
        rcases (hinv h'').mp htrue with ⟨hh, -⟩
        exact absurd (hholder.symm.trans hh) (fun hx => heq hx.symm)
    · rintro ⟨hh, hne⟩
      exact absurd hh.symm hne

/-- Every reachable token state satisfies the invariant. -/
theorem tokenReachable_inv {s : TokenState} (h : TokenReachable s) : TokenInv s := by
  induction h with
  | init =>
    intro h''
    constructor
    · intro hfalse
      exact absurd hfalse (by simp [initTokenState])
    · rintro ⟨hh, hne⟩
      exact absurd hh.symm hne
  | step _ hstep ih => exact tokenStep_inv hstep ih

/-- C3: under every interleaving of acquire and release steps by any set of
harts — where a successful acquire is the compare-exchange taking the holder
word from `INVALID_HART_ID` to the acquiring hart's id, and release stores
`INVALID_HART_ID` back — at most one hart owns the token at any instant. -/
theorem token_exclusivity :
    ∀ s : TokenState, TokenReachable s →
      ∀ h1 h2 : Nat, s.holds h1 = true → s.holds h2 = true → h1 = h2 := by
  intro s hreach h1 h2 hh1 hh2
  have hinv := tokenReachable_inv hreach
  have e1 := ((hinv h1).mp hh1).1
  have e2 := ((hinv h2).mp hh2).1
  rw [← e1, e2]

/-- Witness for C3: after hart 0 acquires the boot-time free token, hart 0 is
the only holder. -/
theorem token_exclusivity_witness :
    TokenReachable tokenStateHart0 ∧ (0 : Nat) = 0 := by
  have hreach : TokenReachable tokenStateHart0 :=
    TokenReachable.step TokenReachable.init
      (TokenStep.acquire initTokenState 0 (by decide) rfl)
  exact ⟨hreach,
    token_exclusivity tokenStateHart0 hreach 0 0
      (by simp [tokenStateHart0]) (by simp [tokenStateHart0])⟩

/-- A successful `call` grows the call stack by exactly one and never past
`MAX_DEPTH`. -/
theorem threadCallOpt_length {th : Thread} {c : Call} {th' : Thread}
    (h : threadCallOpt th c = some th') :
    th'.callStack.length = th.callStack.length + 1
    ∧ th'.callStack.length ≤ MAX_DEPTH := by
  unfold threadCallOpt threadCall callStackPush at h
  cases hctx : th.context with
  | none => rw [hctx] at h; simp at h
  | some ctx =>
    rw [hctx] at h
    by_cases hlen : th.callStack.length < MAX_DEPTH
    · simp only [if_pos hlen] at h
      obtain rfl : _ = th' := Option.some.inj h
      constructor
      · simp
      · simp
        omega
    · simp only [if_neg hlen] at h
      simp at h

/-- A successful sequence of `call`s grows the call stack by the number of
calls, and (when nonempty) leaves it within `MAX_DEPTH`. -/
theorem threadCallMany_length :
    ∀ (l : List Call) (th th' : Thread), threadCallMany th l = some th' →
      th'.callStack.length = th.callStack.length + l.length
      ∧ (l = [] ∨ th'.callStack.length ≤ MAX_DEPTH) := by
  intro l
  induction l with
  | nil =>
    intro th th' h
    obtain rfl : th = th' := Option.some.inj h
    exact ⟨by simp, Or.inl rfl⟩
  | cons c cs ih =>
    intro th th' h
    unfold threadCallMany at h
    cases hstep : threadCallOpt th c with
    | none => rw [hstep] at h; simp at h
    | some th1 =>
      rw [hstep] at h
      replace h : threadCallMany th1 cs = some th' := h
      obtain ⟨h1len, h1le⟩ := threadCallOpt_length hstep
      obtain ⟨hlen, hle⟩ := ih th1 th' h
      refine ⟨by simp [hlen, h1len]; omega, Or.inr ?_⟩
      rcases hle with h0 | hle
      · subst h0
        simpa [hlen] using h1le
      · exact hle

/-- C7: after `MAX_DEPTH = 8` successive successful `call` operations
without an intervening `ret`, the next `call` returns none; and `ret` on a
thread whose call stack is empty returns none. -/
theorem call_stack_bound :
    (∀ (th : Thread) (l : List Call) (c : Call) (th' : Thread),
        l.length = MAX_DEPTH → threadCallMany th l = some th' →
        threadCallOpt th' c = none)
    ∧ (∀ th : Thread, th.callStack = [] → (threadRet th).1 = none) := by
  constructor
  · intro th l c th' hlen8 hmany
    obtain ⟨hlen, hle⟩ := threadCallMany_length l th th' hmany
    have hM : MAX_DEPTH = 8 := rfl
    have h8 : th'.callStack.length = MAX_DEPTH := by
      rcases hle with h0 | hle
      · subst h0; rw [hM] at hlen8; simp at hlen8
      · omega
    unfold threadCallOpt threadCall callStackPush
    cases hctx : th'.context with
    | none => simp [hctx]
    | some ctx => simp [hctx, h8]
  · intro th hempty
    unfold threadRet callStackPop
    cases hctx : th.context with
    | none => simp [hctx]
    | some ctx => simp [hctx, hempty]

/-- Witness for C7: eight successful calls on a fresh thread fill the stack;
the ninth call and a `ret` on the fresh (empty-stack) thread both fail. -/
theorem call_stack_bound_witness :
    (List.replicate 8 callZero).length = MAX_DEPTH
    ∧ threadCallMany threadZero (List.replicate 8 callZero) = some threadAfter8
    ∧ threadCallOpt threadAfter8 callZero = none
    ∧ (threadRet threadZero).1 = none :=
  ⟨rfl, rfl,
   call_stack_bound.1 threadZero (List.replicate 8 callZero) callZero threadAfter8 rfl rfl,
   call_stack_bound.2 threadZero rfl⟩

/-- C8: on a parked thread whose call stack is below `MAX_DEPTH`, a `call`
followed by a `ret` restores the whole thread state — in particular the
context's pc and sp, the bound L2 table, and the call-stack depth. -/
theorem call_ret_roundtrip :
    ∀ (th : Thread) (ctx : Context) (c : Call),
      th.context = some ctx → th.callStack.length < MAX_DEPTH →
      (threadCallOpt th c).bind threadRetOpt = some th := by
  intro th ctx c hctx hlen
  obtain ⟨octx, l2t, cs, ec⟩ := th
  replace hctx : octx = some ctx := hctx
  subst hctx
  replace hlen : cs.length < MAX_DEPTH := hlen
  unfold threadCallOpt threadCall callStackPush threadRetOpt threadRet callStackPop
  simp only [if_pos hlen]
  rfl

/-- Witness for C8: `call` then `ret` on a fresh parked thread returns it to
its initial state. -/
theorem call_ret_roundtrip_witness :
    (threadCallOpt threadZero callZero).bind threadRetOpt = some threadZero :=
  call_ret_roundtrip threadZero ctxZero callZero rfl (by decide)

/-- Right shift distributes over bitwise or. -/
theorem lor_shiftRight (a b n : Nat) : (a ||| b) >>> n = (a >>> n) ||| (b >>> n) := by
  apply Nat.eq_of_testBit_eq
  intro i
  simp [Nat.testBit_lor, Nat.testBit_shiftRight]

/-- Shifting left then right by the same amount is the identity on `Nat`. -/
theorem shiftLeft_shiftRight_self (a n : Nat) : (a <<< n) >>> n = a := by
  rw [Nat.shiftLeft_eq, Nat.shiftRight_eq_div_pow]
  exact Nat.mul_div_cancel a (Nat.pow_pos (by norm_num))

/-- Partially unshifting the frame-index field of a capability entry. -/
theorem shiftLeft_ten_shiftRight_two (a : Nat) : (a <<< 10) >>> 2 = a <<< 8 := by
  rw [Nat.shiftLeft_eq, Nat.shiftLeft_eq, Nat.shiftRight_eq_div_pow]
  have h : a * 2 ^ 10 = a * 2 ^ 8 * 2 ^ 2 := by ring
  rw [h, Nat.mul_div_cancel _ (by norm_num)]

/-- Field decomposition of `L0Entry::cap`: for any tag below 256 the encoded
word has bit 0 clear, bit 1 set, the tag in bits 2-9 and the frame number in
bits 10 and up. -/
theorem l0EntryCap_fields (c idx : Nat) (hc : c < 256) :
    capEntryTag (l0EntryCap idx c) = c
    ∧ capEntryIdx (l0EntryCap idx c) = idx
    ∧ (l0EntryCap idx c).testBit 0 = false
    ∧ (l0EntryCap idx c).testBit 1 = true := by
  unfold l0EntryCap capEntryTag capEntryIdx
  have h255 : (0xff : Nat) = 2 ^ 8 - 1 := by norm_num
  refine ⟨?_, ?_, ?_, ?_⟩
  · rw [lor_shiftRight, lor_shiftRight, lor_shiftRight,
      shiftLeft_shiftRight_self c 2, shiftLeft_ten_shiftRight_two]
    have h0 : (0 : Nat) >>> 2 = 0 := rfl
    have h2 : ((1 : Nat) <<< 1) >>> 2 = 0 := rfl
    rw [h0, h2, Nat.zero_or, Nat.zero_or, Nat.and_distrib_right]
    have hcm : c &&& 0xff = c := by
      rw [h255, Nat.and_pow_two_sub_one_eq_mod, Nat.mod_eq_of_lt hc]
    have him : (idx <<< 8) &&& 0xff = 0 := by
      rw [h255, Nat.and_pow_two_sub_one_eq_mod, Nat.shiftLeft_eq, Nat.mul_mod_left]
    rw [hcm, him]
    simp
  · rw [lor_shiftRight, lor_shiftRight, lor_shiftRight,
      shiftLeft_shiftRight_self idx 10]
    have h0 : (0 : Nat) >>> 10 = 0 := rfl
    have h2 : ((1 : Nat) <<< 1) >>> 10 = 0 := rfl
    have hc2 : (c <<< 2) >>> 10 = 0 := by
      rw [Nat.shiftLeft_eq, Nat.shiftRight_eq_div_pow]
      apply Nat.div_eq_of_lt
      calc c * 2 ^ 2 ≤ 255 * 2 ^ 2 := Nat.mul_le_mul_right _ (by omega)
        _ < 2 ^ 10 := by norm_num
    rw [h0, h2, hc2, Nat.zero_or, Nat.zero_or, Nat.zero_or]
  · simp [Nat.testBit_lor, Nat.testBit_shiftLeft]
  · simp [Nat.testBit_lor, Nat.testBit_shiftLeft]
    decide

/-- C6: for every capability kind (tags 0, 1, 2, 5, 6, 7) and every frame
index, the L0 entry written by `give_capability` has bit 0 = 0, bit 1 = 1,
the kind tag in bits 2-9 and the frame index in bits 10 and up, and decoding
those fields returns the original kind and index. -/
theorem cap_entry_roundtrip :
    ∀ (k : CapKind) (idx : Nat), idx < FRAME_COUNT →
      (l0EntryCap idx k.tag).testBit 0 = false
      ∧ (l0EntryCap idx k.tag).testBit 1 = true
      ∧ capEntryTag (l0EntryCap idx k.tag) = k.tag
      ∧ tagKind (capEntryTag (l0EntryCap idx k.tag)) = some k
      ∧ capEntryIdx (l0EntryCap idx k.tag) = idx := by
  intro k idx _
  have hc : k.tag < 256 := by cases k <;> decide
  obtain ⟨htag, hidx, hb0, hb1⟩ := l0EntryCap_fields k.tag idx hc
  refine ⟨hb0, hb1, htag, ?_, hidx⟩
  rw [htag]
  cases k <;> rfl

/-- Witness for C6: a Thread capability on frame 3 encodes and decodes back
to kind Thread and frame 3. -/
theorem cap_entry_roundtrip_witness :
    (3 : Nat) < FRAME_COUNT
    ∧ capEntryIdx (l0EntryCap 3 CapKind.thread.tag) = 3
    ∧ tagKind (capEntryTag (l0EntryCap 3 CapKind.thread.tag)) = some CapKind.thread := by
  have h := cap_entry_roundtrip CapKind.thread 3 (by norm_num [FRAME_COUNT])
  exact ⟨by norm_num [FRAME_COUNT], h.2.2.2.2, h.2.2.2.1⟩

/-- Pointwise characterization of the `boot_l2_table` fill loop, by induction
on the remaining distance to `TABLE_LEN - 1`. -/
theorem bootL2Fill_aux :
    ∀ (d index : Nat), TABLE_LEN - 1 - index = d →
      ∀ (entries : Fin TABLE_LEN → Nat) (j : Fin TABLE_LEN),
        bootL2Fill entries index j =
          if index ≤ j.val ∧ j.val < TABLE_LEN - 1 then
            l2EntryKernel (j.val - TABLE_LEN / 2) Permissions.readWrite
          else entries j := by
  intro d
  induction d with
  | zero =>
    intro index hd entries j
    have hT : TABLE_LEN = 512 := rfl
    have hj := j.isLt
    unfold bootL2Fill
    rw [dif_neg (by omega), if_neg (by omega)]
  | succ d ih =>
    intro index hd entries j
    have hT : TABLE_LEN = 512 := rfl
    have hj := j.isLt
    have hidx : index < TABLE_LEN - 1 := by omega
    unfold bootL2Fill
    rw [dif_pos hidx, ih (index + 1) (by omega)]
    by_cases hcond : index + 1 ≤ j.val ∧ j.val < TABLE_LEN - 1
    · rw [if_pos hcond, if_pos ⟨by omega, hcond.2⟩]
    · rw [if_neg hcond]
      by_cases hjidx : j.val = index
      · have hje : j = ⟨index, by omega⟩ := Fin.ext hjidx
        rw [if_pos ⟨by omega, by omega⟩, hje, Function.update_same]
      · have hne : j ≠ (⟨index, by omega⟩ : Fin TABLE_LEN) :=
          fun hx => hjidx (by rw [hx])
        rw [if_neg (by omega), Function.update_noteq hne]

/-- Pointwise characterization of the `boot_l2_table` fill loop. -/
theorem bootL2Fill_apply (entries : Fin TABLE_LEN → Nat) (index : Nat)
    (j : Fin TABLE_LEN) :
    bootL2Fill entries index j =
      if index ≤ j.val ∧ j.val < TABLE_LEN - 1 then
        l2EntryKernel (j.val - TABLE_LEN / 2) Permissions.readWrite
      else entries j :=
  bootL2Fill_aux _ index rfl entries j

/-- C5: every user L2 table made by `L2TableCap::new` has entries 0..=255
invalid, entries 256..=510 the boot template's huge-page kernel mapping of
frame (index − 256) with read/write permissions, and entry 511 an interior
pointer to the shared kernel L1 table's frame; away from entry 511 it agrees
with the boot template. -/
theorem user_l2_table_layout :
    ∀ (kernelL1Frame : Nat) (j : Fin TABLE_LEN),
      (l2TableNew kernelL1Frame j =
        if j.val < TABLE_LEN / 2 then l2EntryInvalid
        else if j.val = TABLE_LEN - 1 then l2EntryKernelInterior kernelL1Frame
        else l2EntryKernel (j.val - TABLE_LEN / 2) Permissions.readWrite)
      ∧ (j.val ≠ TABLE_LEN - 1 → l2TableNew kernelL1Frame j = bootL2Table j) := by
  intro k j
  have hT : TABLE_LEN = 512 := rfl
  have hj := j.isLt
  constructor
  · unfold l2TableNew bootL2Table
    by_cases h511 : j.val = TABLE_LEN - 1
    · have hje : j = ⟨TABLE_LEN - 1, by omega⟩ := Fin.ext h511
      rw [hje, Function.update_same, if_neg (by omega), if_pos rfl]
    · have hne : j ≠ (⟨TABLE_LEN - 1, by omega⟩ : Fin TABLE_LEN) :=
        fun hx => h511 (by rw [hx])
      rw [Function.update_noteq hne, Function.update_noteq hne, bootL2Fill_apply]
      by_cases hlow : j.val < TABLE_LEN / 2
      · rw [if_neg (by omega), if_pos hlow]
      · rw [if_pos ⟨by omega, by omega⟩, if_neg hlow, if_neg h511]
  · intro h511
    have hne : j ≠ (⟨TABLE_LEN - 1, by omega⟩ : Fin TABLE_LEN) :=
      fun hx => h511 (by rw [hx])
    unfold l2TableNew
    rw [Function.update_noteq hne]

/-- Witness for C5: in a user L2 table over kernel L1 frame 7, entry 0 is
invalid and agrees with the boot template, entry 256 is the huge-page kernel
mapping of frame 0 with read/write permissions, and entry 511 is the interior
pointer to frame 7. -/
theorem user_l2_table_layout_witness :
    l2TableNew 7 ⟨0, by decide⟩ = l2EntryInvalid
    ∧ l2TableNew 7 ⟨0, by decide⟩ = bootL2Table ⟨0, by decide⟩
    ∧ l2TableNew 7 ⟨256, by decide⟩ = l2EntryKernel 0 Permissions.readWrite
    ∧ l2TableNew 7 ⟨511, by decide⟩ = l2EntryKernelInterior 7 := by
  refine ⟨?_, (user_l2_table_layout 7 ⟨0, by decide⟩).2 (by decide), ?_, ?_⟩
  · have h := (user_l2_table_layout 7 ⟨0, by decide⟩).1
    simpa using h
  · have h := (user_l2_table_layout 7 ⟨256, by decide⟩).1
    simpa [TABLE_LEN] using h
  · have h := (user_l2_table_layout 7 ⟨511, by decide⟩).1
    simpa [TABLE_LEN] using h

end Maize
